import Mathlib

/-!
# Verification of `experiment/coverage_utils.py` (fuzzbench coverage aggregation)

Shallow embedding of the coverage-aggregation module: the Region Extractor
(`TrialCoverage.get_current_covered_regions`), the summary reader
(`get_coverage_infomation`), the fuzzer-benchmark Reducer
(`get_covered_region`), the Aggregation Engine (`get_all_covered_regions`
and its polling receive loop), and the Report Pipeline dispatch
(`generate_cov_reports` / `generate_cov_reports_seq`,
`set_up_coverage_file`).

Conventions of the embedding:
* A region record from the llvm-cov summary is a list of integer fields
  (`List Int`); Python tuple values are structural, as are Lean lists.
* Python `set` becomes `Finset`; Python `dict` becomes an insertion-ordered
  association list (`List (String × _)`) with `dict_update` reproducing the
  replace-or-append semantics of `dict.update`.
* Exceptions become `Except Unit` / explicit error flags; the broad
  `except Exception` handler in `get_current_covered_regions` is the
  `Bool` component ("an error was logged") of its result.
* External effects (filestore listing/copying, the trial registry, the
  queue) are function parameters or explicit action lists.
-/

/-- A region record as it appears in a `cov_summary.json` function entry:
a list of integer fields. In well-formed llvm-cov output it has at least
five fields: four position fields, a hit counter, (optionally more), and a
trailing kind discriminator. -/
abbrev RegionRecord := List Int

/-- The set of covered regions: each element is the first-four-field
projection of a region record (`tuple(region[:4])` in the source). -/
abbrev RegionSet := Finset (List Int)

/-- One entry of `coverage_info['data'][0]['functions']`: its `'regions'`
field, the list of region records of one function. -/
structure FunctionData where
  regions : List RegionRecord
deriving DecidableEq, Repr

/-- One entry of `coverage_info['data']`: an llvm-cov export unit with its
`'functions'` list. -/
structure ExportUnit where
  functions : List FunctionData
deriving DecidableEq, Repr

/-- The decoded coverage summary (`coverage_info` in the source): its
`'data'` list of export units. -/
structure CoverageInfo where
  data : List ExportUnit
deriving DecidableEq, Repr

/-- The outcome of obtaining and decoding a trial's summary artifact
(`get_coverage_infomation(self.cov_summary_file)` followed by the
`['data'][0]['functions']`-shaped decoding): `.error ()` models any raised
exception (file missing, empty file, not JSON, missing keys), `.ok info`
a successfully decoded structure. -/
abbrev SummaryOutcome := Except Unit CoverageInfo

/-- Evaluation of `region[hit_index] != 0 and region[type_index] == 0`
(hit_index = 4, type_index = -1) on one region record, with Python
short-circuiting and `IndexError` as `.error ()`:
`region[4]` raises when the record has fewer than five fields; if it is
zero the conjunction is `False` without evaluating `region[-1]`;
otherwise `region[-1]` is the last field (the record is nonempty here). -/
def checkRegion (region : RegionRecord) : Except Unit Bool :=
  match region.get? 4 with
  | none => .error ()
  | some hit =>
    if hit = 0 then .ok false
    else
      match region.getLast? with
      | none => .error ()
      | some kind => .ok (kind = 0)

/-- The region loop of `get_current_covered_regions`, run over the region
records of all functions in source order: qualifying records contribute
`tuple(region[:hit_index])` (the first four fields) to the accumulated set;
the first record on which `checkRegion` raises aborts the loop (the
exception is caught by the surrounding handler), returning the partial
set together with the error flag. -/
def scanRegions : List RegionRecord → RegionSet → RegionSet × Bool
  | [], acc => (acc, false)
  | region :: rest, acc =>
    match checkRegion region with
    | .error () => (acc, true)
    | .ok true => scanRegions rest (insert (region.take 4) acc)
    | .ok false => scanRegions rest acc

/-- `TrialCoverage.get_current_covered_regions`: start from the empty set,
decode the summary and walk `coverage_info['data'][0]['functions']`,
adding each qualifying region's first four fields. Any exception —
decoding failure, `data[0]` on an empty list, or a malformed record during
the scan — is caught by the `except Exception` handler, which logs an
error (the `Bool` component) and falls through to return whatever set had
been accumulated. The function is total: it never propagates an
exception to its caller. -/
def get_current_covered_regions (summary : SummaryOutcome) : RegionSet × Bool :=
  match summary with
  | .error () => (∅, true)
  | .ok info =>
    match info.data.head? with
    | none => (∅, true)
    | some u => scanRegions (u.functions.flatMap FunctionData.regions) ∅

/-- `get_coverage_infomation`: read the file's lines and JSON-decode only
`readlines()[-1]`, the last line. An empty file makes the `[-1]` indexing
raise; a last line that `json_loads` rejects raises; both are modeled as
`.error ()` (the caller's handler catches them). `json_loads` is the
external `json.loads`, abstracted as a partial decoding function. -/
def get_coverage_infomation (json_loads : String → Option CoverageInfo)
    (lines : List String) : SummaryOutcome :=
  match lines.getLast? with
  | none => .error ()
  | some last =>
    match json_loads last with
    | none => .error ()
    | some info => .ok info

/-- The first-four-field projections of the qualifying records of a list:
those whose fifth field is non-zero and whose last field is zero. Spec
side of claim C1, stated over well-formed records. -/
def qualifyingProjections (regions : List RegionRecord) : List (List Int) :=
  (regions.filter fun r => r.getD 4 0 != 0 && (r.getLast? == some 0)).map
    (fun r => r.take 4)

/-- `get_fuzzer_benchmark_key`: `fuzzer + ' ' + benchmark`. -/
def get_fuzzer_benchmark_key (fuzzer benchmark : String) : String :=
  fuzzer ++ " " ++ benchmark

/-- A Python `dict` keyed by strings, as an insertion-ordered association
list. An entry's key occurs at most once in any dict built by
`dict_update` from `[]`. -/
abbrev CoverageDict := List (String × RegionSet)

/-- Assignment of one key in a Python dict, as performed per key by
`dict.update`: if the key is present its value is REPLACED in place,
otherwise the entry is appended. -/
def dict_update (d : CoverageDict) (k : String) (v : RegionSet) : CoverageDict :=
  if d.any (fun p => p.1 = k) then
    d.map (fun p => if p.1 = k then (k, v) else p)
  else d ++ [(k, v)]

/-- `all_covered_regions.update(covered_regions)`: fold `dict_update` over
the entries of the received mapping. -/
def dict_update_all (d : CoverageDict) (m : CoverageDict) : CoverageDict :=
  m.foldl (fun acc p => dict_update acc p.1 p.2) d

/-- Python `d[k]` as an option: the value at the first (and, for dicts
built by `dict_update`, only) entry with key `k`. -/
def dict_lookup (d : CoverageDict) (k : String) : Option RegionSet :=
  (d.find? (fun p => p.1 = k)).map Prod.snd

/-- The merge performed by the Aggregation Engine's receive loop over a
complete sequence of received mappings, in arrival order, starting from
the empty `all_covered_regions` dict. -/
def merge_messages (msgs : List CoverageDict) : CoverageDict :=
  msgs.foldl dict_update_all []

/-- The RegionSet accumulated by `get_covered_region`'s trial loop:
`covered_regions[key]` starts empty and is unioned with each trial's
`get_current_covered_regions()` in registry order. `trial_summaries`
maps a trial id to the outcome of generating and decoding that trial's
summary artifact. -/
def covered_value (trial_ids : List Nat)
    (trial_summaries : Nat → SummaryOutcome) : RegionSet :=
  trial_ids.foldl
    (fun acc tid => acc ∪ (get_current_covered_regions (trial_summaries tid)).1) ∅

/-- `get_covered_region` for one (fuzzer, benchmark) pair: builds the
single-entry mapping `{key: set}` where `key = get_fuzzer_benchmark_key`,
unions every trial's covered regions into the value, and performs exactly
one `q.put` of that mapping. The result is the list of mappings put on
the queue by one completed invocation. -/
def get_covered_region (fuzzer benchmark : String) (trial_ids : List Nat)
    (trial_summaries : Nat → SummaryOutcome) : List CoverageDict :=
  [[(get_fuzzer_benchmark_key fuzzer benchmark,
     covered_value trial_ids trial_summaries)]]

/-- Python `str.split(sep)` for a one-character separator, over the
character list: splits at every occurrence, keeping empty pieces
(`''.split(',') == ['']`). -/
def splitChars (sep : Char) : List Char → List (List Char)
  | [] => [[]]
  | c :: cs =>
    match splitChars sep cs with
    | [] => [[c]]
    | piece :: rest =>
      if c = sep then [] :: piece :: rest
      else (c :: piece) :: rest

/-- Python `s.split(',')` on a string, via `splitChars`. -/
def py_split (s : String) (sep : Char) : List String :=
  (splitChars sep s.data).map (fun cs => { data := cs })

/-- The experiment configuration consumed by `get_all_covered_regions`:
comma-delimited benchmark and fuzzer lists and the experiment name. -/
structure ExperimentConfig where
  benchmarks : String
  fuzzers : String
  experiment : String
deriving DecidableEq, Repr

/-- `get_covered_region_args` (minus the constant experiment and queue):
the (fuzzer, benchmark) pairs dispatched to the pool, in source order
`for fuzzer in fuzzers for benchmark in benchmarks`. -/
def dispatch_pairs (cfg : ExperimentConfig) : List (String × String) :=
  (py_split cfg.fuzzers ',').flatMap fun fuzzer =>
    (py_split cfg.benchmarks ',').map fun benchmark => (fuzzer, benchmark)

/-- `get_all_covered_regions` for a completed run in which every
dispatched task's mapping was received: the receive loop merges, in
arrival order, the single-entry mapping produced by `get_covered_region`
for each pair. `trial_ids e f b` is the trial registry query
(`get_trial_ids`) and `summaries f b` the per-pair trial summary
outcomes. The `arrival` order is any order in which the queue delivered
the mappings. -/
def get_all_covered_regions (cfg : ExperimentConfig)
    (trial_ids : String → String → String → List Nat)
    (summaries : String → String → Nat → SummaryOutcome)
    (arrival : List (String × String)) : CoverageDict :=
  merge_messages (arrival.map fun p =>
    match get_covered_region p.1 p.2 (trial_ids cfg.experiment p.1 p.2)
        (summaries p.1 p.2) with
    | [] => []
    | m :: _ => m)

/-- Position of the consumer inside the receive loop of
`get_all_covered_regions`. -/
inductive LoopPhase where
  /-- About to call `q.get(timeout=COV_DIFF_QUEUE_GET_TIMEOUT)`. -/
  | tryGet
  /-- `q.get` raised `queue.Empty`; about to call `result.ready()`. -/
  | checkReady
  /-- The loop has executed `break`. -/
  | done
deriving DecidableEq, Repr

/-- State of the Aggregation Engine run: the results not yet put on the
queue by their worker tasks (one per unfinished task), the queue buffer in
FIFO order, the consumer's `all_covered_regions` dict, and the consumer's
position in the loop. -/
structure EngineState where
  pending : List CoverageDict
  queued : List CoverageDict
  acc : CoverageDict
  phase : LoopPhase

/-- Interleaved small-step semantics of the receive loop of
`get_all_covered_regions` running concurrently with the pool workers.
A task's `q.put` and its completion are one atomic event, so
`result.ready()` is true exactly when `pending` is empty.
* `workerPut`: any unfinished task puts its mapping at the back of the
  queue; possible at any consumer position.
* `getItem`: `q.get` returns the front mapping, which is merged with
  `dict.update`.
* `getEmpty`: the queue is empty through the timeout window, so `q.get`
  raises `queue.Empty`.
* `readyTrue`: `result.ready()` is true — every task has completed — and
  the consumer breaks.
* `readyFalse`: some task is still unfinished, so `result.ready()` is
  false and the consumer loops back to `q.get`. -/
inductive EngineStep : EngineState → EngineState → Prop
  | workerPut (l₁ : List CoverageDict) (m : CoverageDict) (l₂ queued acc phase) :
      EngineStep ⟨l₁ ++ m :: l₂, queued, acc, phase⟩
        ⟨l₁ ++ l₂, queued ++ [m], acc, phase⟩
  | getItem (pending : List CoverageDict) (m rest acc) :
      EngineStep ⟨pending, m :: rest, acc, .tryGet⟩
        ⟨pending, rest, dict_update_all acc m, .tryGet⟩
  | getEmpty (pending acc) :
      EngineStep ⟨pending, [], acc, .tryGet⟩ ⟨pending, [], acc, .checkReady⟩
  | readyTrue (queued acc) :
      EngineStep ⟨[], queued, acc, .checkReady⟩ ⟨[], queued, acc, .done⟩
  | readyFalse (pending queued acc) (h : pending ≠ []) :
      EngineStep ⟨pending, queued, acc, .checkReady⟩ ⟨pending, queued, acc, .tryGet⟩

/-- The task list built by `generate_cov_reports` and iterated by
`generate_cov_reports_seq` (minus the constant `experiments` and
`report_dir` arguments): `for benchmark in benchmarks for fuzzer in
fuzzers`. -/
def generate_cov_report_args (benchmarks fuzzers : List String) :
    List (String × String) :=
  benchmarks.flatMap fun benchmark =>
    fuzzers.map fun fuzzer => (benchmark, fuzzer)

/-- The report writes performed by running `generate_cov_report` on each
(benchmark, fuzzer) pair of a list, in that execution order. Each task
writes the rendered report `render benchmark fuzzer` to its own
destination `report_dir/benchmark/fuzzer`, identified here by the pair;
`render` abstracts the deterministic fetch/merge/llvm-cov pipeline as a
function of the task's arguments. -/
def report_writes {ρ : Type} (render : String → String → ρ)
    (order : List (String × String)) : List ((String × String) × ρ) :=
  order.map fun p => ((p.1, p.2), render p.1 p.2)

/-- The final contents of the report directory after a sequence of
writes: per destination, the last write wins; an unwritten destination is
empty. -/
def final_contents {ρ : Type} (writes : List ((String × String) × ρ)) :
    (String × String) → Option ρ :=
  writes.foldl (fun m w => fun p => if p = w.1 then some w.2 else m p)
    (fun _ => none)

/-- `generate_cov_reports`: the pool executes one `generate_cov_report`
task per pair; the tasks complete in some interleaving `order` of the
dispatched task list. The result is the final report contents. -/
def generate_cov_reports {ρ : Type} (render : String → String → ρ)
    (order : List (String × String)) : (String × String) → Option ρ :=
  final_contents (report_writes render order)

/-- `generate_cov_reports_seq`: the strictly sequential dispatch runs the
same tasks in the nested-loop order of `generate_cov_report_args`. -/
def generate_cov_reports_seq {ρ : Type} (render : String → String → ρ)
    (benchmarks fuzzers : List String) : (String × String) → Option ρ :=
  final_contents (report_writes render (generate_cov_report_args benchmarks fuzzers))

/-- `get_coverage_archive_name`: `'coverage-build-%s.tar.gz' % benchmark`. -/
def get_coverage_archive_name (benchmark : String) : String :=
  "coverage-build-" ++ benchmark ++ ".tar.gz"

/-- `get_experiment_filestore_path`: the filestore root is the
`EXPERIMENT_FILESTORE` environment variable when set (modeled by the
`Option`), else `gs://fuzzbench-data`, joined with the experiment name. -/
def get_experiment_filestore_path (env_filestore : Option String)
    (experiment_name : String) : String :=
  (match env_filestore with
   | some root => root
   | none => "gs://fuzzbench-data") ++ "/" ++ experiment_name

/-- `get_benchmark_archive`: the coverage archive path of a benchmark in
an experiment's filestore. -/
def get_benchmark_archive (env_filestore : Option String)
    (experiment_name benchmark : String) : String :=
  get_experiment_filestore_path env_filestore experiment_name ++
    "/coverage-binaries/" ++ get_coverage_archive_name benchmark

/-- One filesystem/filestore effect performed by `set_up_coverage_file`. -/
inductive StageAction where
  /-- `filesystem.create_directory(benchmark_report_dir)`. -/
  | create_directory (dir : String)
  /-- `filestore_utils.cp(archive_filestore_path, benchmark_report_dir)`. -/
  | cp (src dst : String)
  /-- `tarfile.open(...).extractall(benchmark_report_dir)`. -/
  | extract (archive dir : String)
  /-- `os.remove(archive_path)`. -/
  | remove (path : String)
deriving DecidableEq, Repr

/-- The staging effects of the `archive_exist` branch of
`set_up_coverage_file` for one experiment. -/
def stage_actions (env_filestore : Option String)
    (report_dir benchmark experiment : String) : List StageAction :=
  let benchmark_report_dir := report_dir ++ "/" ++ benchmark
  let archive_path := benchmark_report_dir ++ "/" ++ get_coverage_archive_name benchmark
  [.create_directory benchmark_report_dir,
   .cp (get_benchmark_archive env_filestore experiment benchmark) benchmark_report_dir,
   .extract archive_path benchmark_report_dir,
   .remove archive_path]

/-- `set_up_coverage_file`: walk `experiment_names` in the caller's
order; on the first experiment whose archive exists in the filestore
(`filestore_utils.ls(...).retcode == 0`, modeled by `ls_exists` on the
archive path), perform the staging effects and `break`; if none exists
the loop falls through with no effects and no error. Returns the list of
effects performed. -/
def set_up_coverage_file (env_filestore : Option String)
    (report_dir benchmark : String) (ls_exists : String → Bool) :
    List String → List StageAction
  | [] => []
  | experiment :: rest =>
    if ls_exists (get_benchmark_archive env_filestore experiment benchmark) then
      stage_actions env_filestore report_dir benchmark experiment
    else
      set_up_coverage_file env_filestore report_dir benchmark ls_exists rest

lemma checkRegion_eq_ok (r : RegionRecord) (h : 5 ≤ r.length) :
    checkRegion r = .ok (r.getD 4 0 != 0 && (r.getLast? == some 0)) := by
  have h4 : 4 < r.length := by omega
  have hne : r ≠ [] := by
    intro he
    simp [he] at h4
  have hk : r.getLast? = some (r.getLast hne) := List.getLast?_eq_getLast r hne
  unfold checkRegion
  rw [List.get?_eq_get h4, hk]
  rw [List.getD_eq_getElem?_getD, List.getElem?_eq_getElem h4]
  by_cases h0 : r[4] = 0
  · simp [h0, List.get_eq_getElem]
  · simp only [List.get_eq_getElem, h0, if_false, Option.getD_some]
    have hb : (r[4] != 0) = true := by simp [h0]
    rw [hb, Bool.true_and]
    by_cases hl : r.getLast hne = 0 <;> simp [hl]

lemma scanRegions_wellformed (l : List RegionRecord)
    (h : ∀ r ∈ l, 5 ≤ r.length) (acc : RegionSet) :
    scanRegions l acc = (acc ∪ (qualifyingProjections l).toFinset, false) := by
  induction l generalizing acc with
  | nil => simp [scanRegions, qualifyingProjections]
  | cons r rest ih =>
    have hr : 5 ≤ r.length := h r (List.mem_cons_self r rest)
    have hrest : ∀ x ∈ rest, 5 ≤ x.length := fun x hx => h x (List.mem_cons_of_mem r hx)
    rw [scanRegions, checkRegion_eq_ok r hr]
    by_cases hq : (r.getD 4 0 != 0 && (r.getLast? == some 0)) = true
    · rw [hq]
      show scanRegions rest (insert (r.take 4) acc) = _
      rw [ih hrest]
      unfold qualifyingProjections
      rw [List.filter_cons_of_pos (p := fun s => List.getD s 4 0 != 0 && (List.getLast? s == some 0)) hq]
      simp [Finset.union_insert, Finset.insert_union]
    · rw [Bool.not_eq_true] at hq
      rw [hq]
      show scanRegions rest acc = _
      rw [ih hrest]
      unfold qualifyingProjections
      rw [List.filter_cons_of_neg (p := fun s => List.getD s 4 0 != 0 && (List.getLast? s == some 0)) (by simp only [Bool.not_eq_true]; exact hq)]

/-- C1: on a well-formed summary artifact — `data` nonempty with first
export unit `u`, every region record having at least five fields — the
Region Extractor returns exactly the set of first-four-field projections
of the records whose fifth field (hit flag) is non-zero and whose last
field (kind discriminator) is zero; records failing either condition are
excluded, and duplicate qualifying records contribute once (the result is
a `Finset`). -/
theorem region_extractor_projects_hit_code_regions (info : CoverageInfo)
    (u : ExportUnit) (hu : info.data.head? = some u)
    (hwf : ∀ r ∈ u.functions.flatMap FunctionData.regions, 5 ≤ r.length) :
    (get_current_covered_regions (.ok info)).1 =
      (qualifyingProjections (u.functions.flatMap FunctionData.regions)).toFinset ∧
    ∀ x, (x ∈ (get_current_covered_regions (.ok info)).1 ↔
      ∃ r ∈ u.functions.flatMap FunctionData.regions,
        r.getD 4 0 ≠ 0 ∧ r.getLast? = some 0 ∧ x = r.take 4) := by
  have hmain : (get_current_covered_regions (.ok info)).1 =
      (qualifyingProjections (u.functions.flatMap FunctionData.regions)).toFinset := by
    rw [get_current_covered_regions, hu]
    show (scanRegions (u.functions.flatMap FunctionData.regions) ∅).1 = _
    rw [scanRegions_wellformed _ hwf ∅]
    simp
  refine ⟨hmain, fun x => ?_⟩
  rw [hmain]
  simp only [List.mem_toFinset, qualifyingProjections, List.mem_map, List.mem_filter]
  constructor
  · rintro ⟨r, ⟨hmem, hcond⟩, hx⟩
    rw [Bool.and_eq_true, bne_iff_ne, beq_iff_eq] at hcond
    exact ⟨r, hmem, hcond.1, hcond.2, hx.symm⟩
  · rintro ⟨r, hmem, h1, h2, hx⟩
    refine ⟨r, ⟨hmem, ?_⟩, hx.symm⟩
    rw [Bool.and_eq_true, bne_iff_ne, beq_iff_eq]
    exact ⟨h1, h2⟩

/-- Witness for C1 at a concrete artifact: two qualifying records with
the same projection (counted once), one record with hit flag zero, one
with a non-code kind. -/
theorem region_extractor_projects_hit_code_regions_witness :
    ((⟨[⟨[⟨[[1, 2, 3, 4, 1, 0], [5, 6, 7, 8, 0, 0], [1, 2, 3, 4, 7, 0],
        [9, 9, 9, 9, 1, 1]]⟩]⟩]⟩ : CoverageInfo).data.head? =
      some ⟨[⟨[[1, 2, 3, 4, 1, 0], [5, 6, 7, 8, 0, 0], [1, 2, 3, 4, 7, 0],
        [9, 9, 9, 9, 1, 1]]⟩]⟩) ∧
    (∀ r ∈ (ExportUnit.functions ⟨[⟨[[1, 2, 3, 4, 1, 0], [5, 6, 7, 8, 0, 0],
        [1, 2, 3, 4, 7, 0], [9, 9, 9, 9, 1, 1]]⟩]⟩).flatMap FunctionData.regions,
      5 ≤ r.length) ∧
    (get_current_covered_regions (.ok ⟨[⟨[⟨[[1, 2, 3, 4, 1, 0], [5, 6, 7, 8, 0, 0],
        [1, 2, 3, 4, 7, 0], [9, 9, 9, 9, 1, 1]]⟩]⟩]⟩)).1 =
      (qualifyingProjections ((ExportUnit.functions ⟨[⟨[[1, 2, 3, 4, 1, 0],
        [5, 6, 7, 8, 0, 0], [1, 2, 3, 4, 7, 0], [9, 9, 9, 9, 1, 1]]⟩]⟩).flatMap
        FunctionData.regions)).toFinset :=
  ⟨rfl, by decide,
   (region_extractor_projects_hit_code_regions
     ⟨[⟨[⟨[[1, 2, 3, 4, 1, 0], [5, 6, 7, 8, 0, 0], [1, 2, 3, 4, 7, 0],
       [9, 9, 9, 9, 1, 1]]⟩]⟩]⟩
     ⟨[⟨[[1, 2, 3, 4, 1, 0], [5, 6, 7, 8, 0, 0], [1, 2, 3, 4, 7, 0],
       [9, 9, 9, 9, 1, 1]]⟩]⟩ rfl (by decide)).1⟩

lemma checkRegion_error_of_short (r : RegionRecord) (h : r.length < 5) :
    checkRegion r = .error () := by
  unfold checkRegion
  rw [List.get?_eq_none.mpr (by omega)]

lemma scanRegions_error_at (l₁ : List RegionRecord) (r : RegionRecord)
    (l₂ : List RegionRecord) (h₁ : ∀ x ∈ l₁, 5 ≤ x.length) (hr : r.length < 5)
    (acc : RegionSet) :
    scanRegions (l₁ ++ r :: l₂) acc =
      (acc ∪ (qualifyingProjections l₁).toFinset, true) := by
  induction l₁ generalizing acc with
  | nil =>
    rw [List.nil_append, scanRegions, checkRegion_error_of_short r hr]
    simp [qualifyingProjections]
  | cons x rest ih =>
    have hx : 5 ≤ x.length := h₁ x (List.mem_cons_self x rest)
    have hrest : ∀ y ∈ rest, 5 ≤ y.length := fun y hy => h₁ y (List.mem_cons_of_mem x hy)
    rw [List.cons_append, scanRegions, checkRegion_eq_ok x hx]
    by_cases hq : (x.getD 4 0 != 0 && (x.getLast? == some 0)) = true
    · rw [hq]
      show scanRegions (rest ++ r :: l₂) (insert (x.take 4) acc) = _
      rw [ih hrest]
      unfold qualifyingProjections
      rw [List.filter_cons_of_pos (p := fun s => List.getD s 4 0 != 0 && (List.getLast? s == some 0)) hq]
      simp [Finset.union_insert, Finset.insert_union]
    · rw [Bool.not_eq_true] at hq
      rw [hq]
      show scanRegions (rest ++ r :: l₂) acc = _
      rw [ih hrest]
      unfold qualifyingProjections
      rw [List.filter_cons_of_neg (p := fun s => List.getD s 4 0 != 0 && (List.getLast? s == some 0)) (by simp only [Bool.not_eq_true]; exact hq)]

/-- C4 counterexample: an artifact whose function has a qualifying record
followed by a malformed (too short) record. Extraction fails — the error
flag is set, the handler logged — yet the returned set is NOT empty: it
holds the projection accumulated before the malformed record. -/
theorem extraction_failure_counterexample :
    (get_current_covered_regions
      (.ok ⟨[⟨[⟨[[1, 2, 3, 4, 1, 0], [0]]⟩]⟩]⟩)).2 = true ∧
    (get_current_covered_regions
      (.ok ⟨[⟨[⟨[[1, 2, 3, 4, 1, 0], [0]]⟩]⟩]⟩)).1 ≠ (∅ : RegionSet) := by
  constructor
  · decide
  · decide

/-- C4 amended: when extraction fails before any region record is
scanned — the summary unobtainable or undecodable (`.error ()`), the
decoded `data` list empty so `data[0]` raises, or the file empty so
`readlines()[-1]` raises — the result is the empty set with an error
logged; when the failure is a malformed record met mid-scan, an error is
logged and the set of qualifying projections accumulated before the
failure (possibly non-empty) is returned. In every case the function
returns normally instead of raising. -/
theorem extraction_failure_handling :
    get_current_covered_regions (.error ()) = (∅, true) ∧
    (∀ info : CoverageInfo, info.data = [] →
      get_current_covered_regions (.ok info) = (∅, true)) ∧
    (∀ json_loads : String → Option CoverageInfo,
      get_coverage_infomation json_loads [] = .error ()) ∧
    (∀ (info : CoverageInfo) (u : ExportUnit), info.data.head? = some u →
      ∀ (l₁ : List RegionRecord) (r : RegionRecord) (l₂ : List RegionRecord),
        u.functions.flatMap FunctionData.regions = l₁ ++ r :: l₂ →
        (∀ x ∈ l₁, 5 ≤ x.length) → r.length < 5 →
        get_current_covered_regions (.ok info) =
          ((qualifyingProjections l₁).toFinset, true)) := by
  refine ⟨rfl, ?_, fun _ => rfl, ?_⟩
  · intro info hd
    rw [get_current_covered_regions, hd]
    rfl
  · intro info u hu l₁ r l₂ hsplit h₁ hr
    rw [get_current_covered_regions, hu]
    show scanRegions (u.functions.flatMap FunctionData.regions) ∅ = _
    rw [hsplit, scanRegions_error_at l₁ r l₂ h₁ hr ∅]
    simp

/-- Witness for C4 at the concrete mid-scan-failure artifact. -/
theorem extraction_failure_handling_witness :
    ((⟨[⟨[⟨[[1, 2, 3, 4, 1, 0], [0]]⟩]⟩]⟩ : CoverageInfo).data.head? =
      some ⟨[⟨[[1, 2, 3, 4, 1, 0], [0]]⟩]⟩) ∧
    ((ExportUnit.functions ⟨[⟨[[1, 2, 3, 4, 1, 0], [0]]⟩]⟩).flatMap
      FunctionData.regions = [[1, 2, 3, 4, 1, 0]] ++ [0] :: []) ∧
    get_current_covered_regions (.ok ⟨[⟨[⟨[[1, 2, 3, 4, 1, 0], [0]]⟩]⟩]⟩) =
      ((qualifyingProjections [[1, 2, 3, 4, 1, 0]]).toFinset, true) :=
  ⟨rfl, by decide,
   extraction_failure_handling.2.2.2
     ⟨[⟨[⟨[[1, 2, 3, 4, 1, 0], [0]]⟩]⟩]⟩ ⟨[⟨[[1, 2, 3, 4, 1, 0], [0]]⟩]⟩ rfl
     [[1, 2, 3, 4, 1, 0]] [0] [] (by decide) (by decide) (by decide)⟩
/-- C10: `get_coverage_infomation` decodes only the final line of the
summary file. Prepending any lines does not change the result; an empty
file fails (the `[-1]` indexing raises); a last line rejected by
`json.loads` fails regardless of earlier lines; and on success the
decoded value is exactly `json.loads` of the last line, the sole source
of the coverage data consumed downstream. -/
theorem summary_reader_uses_only_last_line :
    (∀ (json_loads : String → Option CoverageInfo) (pre : List String) (l : String),
      get_coverage_infomation json_loads (pre ++ [l]) =
        get_coverage_infomation json_loads [l]) ∧
    (∀ json_loads : String → Option CoverageInfo,
      get_coverage_infomation json_loads [] = .error ()) ∧
    (∀ (json_loads : String → Option CoverageInfo) (pre : List String) (l : String),
      json_loads l = none →
        get_coverage_infomation json_loads (pre ++ [l]) = .error ()) ∧
    (∀ (json_loads : String → Option CoverageInfo) (pre : List String)
      (l : String) (info : CoverageInfo),
      json_loads l = some info →
        get_coverage_infomation json_loads (pre ++ [l]) = .ok info) := by
  have hlast : ∀ (pre : List String) (l : String),
      (pre ++ [l]).getLast? = some l := by
    intro pre l
    rw [List.getLast?_append]
    rfl
  refine ⟨?_, fun _ => rfl, ?_, ?_⟩
  · intro json_loads pre l
    rw [get_coverage_infomation, hlast pre l]
    rfl
  · intro json_loads pre l hnone
    rw [get_coverage_infomation, hlast pre l]
    show (match json_loads l with
      | none => Except.error ()
      | some info => Except.ok info) = _
    rw [hnone]
  · intro json_loads pre l info hsome
    rw [get_coverage_infomation, hlast pre l]
    show (match json_loads l with
      | none => Except.error ()
      | some info => Except.ok info) = _
    rw [hsome]

/-- Witness for C10: a file with a leading warning line and an
undecodable last line fails; the same decode succeeding on a decodable
last line returns its decoding. -/
theorem summary_reader_uses_only_last_line_witness :
    ((fun _ : String => (none : Option CoverageInfo)) "x" = none) ∧
    get_coverage_infomation (fun _ => none) (["warning"] ++ ["x"]) = .error () :=
  ⟨rfl, summary_reader_uses_only_last_line.2.2.1 (fun _ => none) ["warning"] "x" rfl⟩

lemma dict_update_cons_of_ne (p : String × RegionSet) (rest : CoverageDict)
    (k : String) (v : RegionSet) (hp : p.1 ≠ k) :
    dict_update (p :: rest) k v = p :: dict_update rest k v := by
  unfold dict_update
  by_cases hr : rest.any (fun q => q.1 = k)
  · rw [if_pos (by simp [List.any_cons, hr]), if_pos hr]
    simp [hp]
  · rw [if_neg (by simp [List.any_cons, hr, hp]), if_neg hr]
    simp

lemma dict_update_cons_of_eq (p : String × RegionSet) (rest : CoverageDict)
    (k : String) (v : RegionSet) (hp : p.1 = k) :
    dict_update (p :: rest) k v =
      (k, v) :: rest.map (fun q => if q.1 = k then (k, v) else q) := by
  unfold dict_update
  rw [if_pos (by simp [List.any_cons, hp])]
  simp [hp]

lemma dict_lookup_cons_of_ne (p : String × RegionSet) (rest : CoverageDict)
    (k : String) (hp : p.1 ≠ k) :
    dict_lookup (p :: rest) k = dict_lookup rest k := by
  unfold dict_lookup
  rw [List.find?_cons_of_neg _ (by simp [hp])]

lemma dict_lookup_update_self (d : CoverageDict) (k : String) (v : RegionSet) :
    dict_lookup (dict_update d k v) k = some v := by
  induction d with
  | nil =>
    simp [dict_update, dict_lookup]
  | cons p rest ih =>
    by_cases hp : p.1 = k
    · rw [dict_update_cons_of_eq p rest k v hp]
      unfold dict_lookup
      rw [List.find?_cons_of_pos _ (by simp)]
      rfl
    · rw [dict_update_cons_of_ne p rest k v hp,
        dict_lookup_cons_of_ne p _ k hp]
      exact ih

lemma dict_lookup_update_other (d : CoverageDict) (k k' : String)
    (v : RegionSet) (hne : k' ≠ k) :
    dict_lookup (dict_update d k v) k' = dict_lookup d k' := by
  induction d with
  | nil =>
    simp [dict_update, dict_lookup, Ne.symm hne]
  | cons p rest ih =>
    by_cases hp : p.1 = k
    · rw [dict_update_cons_of_eq p rest k v hp]
      rw [dict_lookup_cons_of_ne _ _ k' (by simpa using Ne.symm hne),
        dict_lookup_cons_of_ne p rest k' (by rw [hp]; exact Ne.symm hne)]
      clear ih
      induction rest with
      | nil => rfl
      | cons q qrest ihq =>
        by_cases hq : q.1 = k
        · rw [List.map_cons, if_pos hq]
          rw [dict_lookup_cons_of_ne _ _ k' (by simpa using Ne.symm hne),
            dict_lookup_cons_of_ne q qrest k' (by rw [hq]; exact Ne.symm hne)]
          exact ihq
        · rw [List.map_cons, if_neg hq]
          by_cases hqk : q.1 = k'
          · unfold dict_lookup
            rw [List.find?_cons_of_pos _ (by simp [hqk]),
              List.find?_cons_of_pos _ (by simp [hqk])]
          · rw [dict_lookup_cons_of_ne q _ k' hqk,
              dict_lookup_cons_of_ne q qrest k' hqk]
            exact ihq
    · rw [dict_update_cons_of_ne p rest k v hp]
      by_cases hqk : p.1 = k'
      · unfold dict_lookup
        rw [List.find?_cons_of_pos _ (by simp [hqk]),
          List.find?_cons_of_pos _ (by simp [hqk])]
      · rw [dict_lookup_cons_of_ne p _ k' hqk,
          dict_lookup_cons_of_ne p rest k' hqk]
        exact ih

/-- C2 counterexample: a key received twice. The first mapping records
region `[1,2,3,4]` under `"k"`; merging a second mapping for `"k"`
REPLACES the entry (Python `dict.update`), so the final value is the
second set — not the union of the two — and the recorded region has been
removed. -/
theorem merge_union_counterexample :
    dict_lookup (merge_messages [[("k", ({[1, 2, 3, 4]} : RegionSet))]]) "k" =
      some {[1, 2, 3, 4]} ∧
    dict_lookup (merge_messages [[("k", ({[1, 2, 3, 4]} : RegionSet))],
      [("k", (∅ : RegionSet))]]) "k" = some ∅ ∧
    ([1, 2, 3, 4] : List Int) ∉ (∅ : RegionSet) ∧
    (∅ : RegionSet) ≠ {[1, 2, 3, 4]} ∪ ∅ := by
  refine ⟨by decide, by decide, by decide, by decide⟩

/-- C2 amended: when a received mapping's key is already present in
`all_covered_regions`, `dict.update` REPLACES the stored RegionSet with
the incoming one (other keys are untouched); coverage recorded under a
key is therefore not preserved by a later merge for the same key, and
monotonicity holds only because each pair is dispatched — and hence each
key received — exactly once in a normal run. -/
theorem merge_replaces_existing_key :
    (∀ (d : CoverageDict) (k : String) (v : RegionSet),
      dict_lookup (dict_update d k v) k = some v) ∧
    (∀ (d : CoverageDict) (k k' : String) (v : RegionSet), k' ≠ k →
      dict_lookup (dict_update d k v) k' = dict_lookup d k') ∧
    (∀ (d : CoverageDict) (k : String) (v : RegionSet),
      dict_update_all d [(k, v)] = dict_update d k v) :=
  ⟨dict_lookup_update_self, fun d k k' v h => dict_lookup_update_other d k k' v h,
   fun _ _ _ => rfl⟩

/-- Witness for C2 amended: replacement observed at a concrete dict that
already holds key `"k"`. -/
theorem merge_replaces_existing_key_witness :
    ("j" : String) ≠ "k" ∧
    dict_lookup (dict_update [("k", ({[1, 2, 3, 4]} : RegionSet))] "k" ∅) "k" =
      some ∅ ∧
    dict_lookup (dict_update [("k", ({[1, 2, 3, 4]} : RegionSet)),
      ("j", {[5, 6, 7, 8]})] "k" ∅) "j" =
      dict_lookup [("k", ({[1, 2, 3, 4]} : RegionSet)), ("j", {[5, 6, 7, 8]})] "j" :=
  ⟨by decide, merge_replaces_existing_key.1 [("k", {[1, 2, 3, 4]})] "k" ∅,
   merge_replaces_existing_key.2.1 [("k", {[1, 2, 3, 4]}), ("j", {[5, 6, 7, 8]})]
     "k" "j" ∅ (by decide)⟩

lemma append_sep_inj {α : Type} (x : α) :
    ∀ (l₁ l₂ r₁ r₂ : List α), x ∉ l₁ → x ∉ l₂ →
      l₁ ++ x :: r₁ = l₂ ++ x :: r₂ → l₁ = l₂ ∧ r₁ = r₂ := by
  intro l₁
  induction l₁ with
  | nil =>
    intro l₂ r₁ r₂ _ h₂ heq
    cases l₂ with
    | nil => simpa using heq
    | cons b l₂' =>
      rw [List.nil_append, List.cons_append] at heq
      have hb : x = b := (List.cons.injEq _ _ _ _).mp heq |>.1
      exact absurd (hb ▸ List.mem_cons_self b l₂') h₂
  | cons a l₁' ih =>
    intro l₂ r₁ r₂ h₁ h₂ heq
    cases l₂ with
    | nil =>
      rw [List.cons_append, List.nil_append] at heq
      have ha : a = x := (List.cons.injEq _ _ _ _).mp heq |>.1
      exact absurd (ha ▸ List.mem_cons_self a l₁') (ha ▸ h₁)
    | cons b l₂' =>
      rw [List.cons_append, List.cons_append] at heq
      obtain ⟨hab, htail⟩ := (List.cons.injEq _ _ _ _).mp heq
      have hx₁ : x ∉ l₁' := fun hm => h₁ (List.mem_cons_of_mem a hm)
      have hx₂ : x ∉ l₂' := fun hm => h₂ (List.mem_cons_of_mem b hm)
      obtain ⟨hl, hr⟩ := ih l₂' r₁ r₂ hx₁ hx₂ htail
      exact ⟨by rw [hab, hl], hr⟩

/-- C6 counterexample: distinct (fuzzer, benchmark) pairs with the same
key. When names may contain spaces the key `fuzzer + ' ' + benchmark` is
not unique per pair: `("a", "b c")` and `("a b", "c")` both map to
`"a b c"`. -/
theorem fuzzer_benchmark_key_collision_counterexample :
    get_fuzzer_benchmark_key "a" "b c" = get_fuzzer_benchmark_key "a b" "c" ∧
    (("a", "b c") : String × String) ≠ ("a b", "c") := by
  refine ⟨by decide, by decide⟩

lemma get_fuzzer_benchmark_key_inj (f₁ b₁ f₂ b₂ : String)
    (h₁ : ' ' ∉ f₁.data) (h₂ : ' ' ∉ f₂.data)
    (heq : get_fuzzer_benchmark_key f₁ b₁ = get_fuzzer_benchmark_key f₂ b₂) :
    f₁ = f₂ ∧ b₁ = b₂ := by
  have hdata : f₁.data ++ ' ' :: b₁.data = f₂.data ++ ' ' :: b₂.data := by
    have := congrArg String.data heq
    simpa [get_fuzzer_benchmark_key, String.data_append] using this
  obtain ⟨hf, hb⟩ := append_sep_inj ' ' f₁.data f₂.data b₁.data b₂.data h₁ h₂ hdata
  exact ⟨String.ext hf, String.ext hb⟩

/-- C6 amended: the key of a pair is the string `fuzzer ++ " " ++
benchmark`; it is stable (the same pair always yields the same string),
and it is unique per pair whenever fuzzer names contain no space
character: two pairs with space-free fuzzer names and equal keys are
equal. -/
theorem fuzzer_benchmark_key_stable_and_unique :
    (∀ f b : String, get_fuzzer_benchmark_key f b = f ++ " " ++ b) ∧
    (∀ f₁ b₁ f₂ b₂ : String, ' ' ∉ f₁.data → ' ' ∉ f₂.data →
      get_fuzzer_benchmark_key f₁ b₁ = get_fuzzer_benchmark_key f₂ b₂ →
      f₁ = f₂ ∧ b₁ = b₂) :=
  ⟨fun _ _ => rfl, get_fuzzer_benchmark_key_inj⟩

/-- Witness for C6 amended at concrete space-free fuzzer names. -/
theorem fuzzer_benchmark_key_stable_and_unique_witness :
    (' ' ∉ ("afl" : String).data) ∧
    (get_fuzzer_benchmark_key "afl" "b1" = get_fuzzer_benchmark_key "afl" "b1") ∧
    (("afl" : String) = "afl" ∧ ("b1" : String) = "b1") :=
  ⟨by decide, rfl,
   fuzzer_benchmark_key_stable_and_unique.2 "afl" "b1" "afl" "b1"
     (by decide) (by decide) rfl⟩

/-- C9: every completed invocation of `get_covered_region` performs
exactly one `q.put`, of a single-entry mapping whose sole key is
`get_fuzzer_benchmark_key(fuzzer, benchmark)`; when the trial id list is
empty the value is the empty set. -/
theorem reducer_puts_single_entry_mapping (f b : String) (ids : List Nat)
    (s : Nat → SummaryOutcome) :
    (get_covered_region f b ids s).length = 1 ∧
    get_covered_region f b ids s =
      [[(get_fuzzer_benchmark_key f b, covered_value ids s)]] ∧
    (ids = [] → get_covered_region f b ids s =
      [[(get_fuzzer_benchmark_key f b, (∅ : RegionSet))]]) := by
  refine ⟨rfl, rfl, ?_⟩
  rintro rfl
  rfl

/-- Witness for C9 at a concrete pair with no trials. -/
theorem reducer_puts_single_entry_mapping_witness :
    (([] : List Nat) = []) ∧
    get_covered_region "afl" "b1" [] (fun _ => .error ()) =
      [[(get_fuzzer_benchmark_key "afl" "b1", (∅ : RegionSet))]] :=
  ⟨rfl,
   (reducer_puts_single_entry_mapping "afl" "b1" [] (fun _ => .error ())).2.2 rfl⟩

/-- C8: `set_up_coverage_file` stages the archive of exactly the first
experiment, in the caller-supplied order, whose archive path exists in
the object store — creating the per-benchmark directory, copying the
archive, extracting it, and removing the local archive — and performs no
staging for any later experiment; when no experiment has an archive it
performs no action at all (and no error). -/
theorem staging_uses_first_existing_archive (env : Option String)
    (report_dir benchmark : String) (ls_exists : String → Bool)
    (names : List String) :
    set_up_coverage_file env report_dir benchmark ls_exists names =
      (match names.find?
          (fun e => ls_exists (get_benchmark_archive env e benchmark)) with
       | none => []
       | some e => stage_actions env report_dir benchmark e) := by
  induction names with
  | nil => rfl
  | cons e rest ih =>
    rw [set_up_coverage_file, List.find?_cons]
    by_cases he : ls_exists (get_benchmark_archive env e benchmark)
    · rw [if_pos he, he]
    · rw [if_neg he, ih]
      have : ls_exists (get_benchmark_archive env e benchmark) = false := by
        simpa using he
      rw [this]

lemma final_contents_report_writes {ρ : Type} (render : String → String → ρ)
    (l : List (String × String)) (p : String × String) :
    final_contents (report_writes render l) p =
      if p ∈ l then some (render p.1 p.2) else none := by
  induction l using List.reverseRecOn with
  | nil => simp [final_contents, report_writes]
  | append_singleton front q ih =>
    unfold report_writes at ih ⊢
    rw [List.map_append, List.map_singleton]
    unfold final_contents at ih ⊢
    rw [List.foldl_append, List.foldl_cons, List.foldl_nil]
    by_cases hpq : p = (q.1, q.2)
    · have hp : p = q := by
        rw [hpq]
      rw [if_pos hpq, if_pos (by rw [hp]; exact List.mem_append_right front (List.mem_singleton_self q))]
      rw [hpq]
    · rw [if_neg hpq, ih]
      have hpq' : p ≠ q := by
        intro he
        exact hpq (by rw [he])
      by_cases hm : p ∈ front
      · rw [if_pos hm, if_pos (List.mem_append_left [q] hm)]
      · rw [if_neg hm, if_neg (by
          intro hmem
          rcases List.mem_append.mp hmem with h | h
          · exact hm h
          · exact hpq' (List.mem_singleton.mp h))]

/-- C7: for the same benchmarks and fuzzers, the parallel dispatch —
whose per-pair tasks complete in an arbitrary interleaving of the
dispatched task list — and the strictly sequential dispatch produce
identical final report contents: each task writes the report rendered
from its own (benchmark, fuzzer) arguments to its own per-pair
destination, so the final contents at every destination agree. -/
theorem parallel_and_sequential_reports_agree {ρ : Type}
    (render : String → String → ρ) (benchmarks fuzzers : List String)
    (order : List (String × String))
    (hperm : order.Perm (generate_cov_report_args benchmarks fuzzers)) :
    generate_cov_reports render order =
      generate_cov_reports_seq render benchmarks fuzzers := by
  funext p
  rw [generate_cov_reports, generate_cov_reports_seq,
    final_contents_report_writes, final_contents_report_writes]
  by_cases hm : p ∈ generate_cov_report_args benchmarks fuzzers
  · rw [if_pos hm, if_pos (hperm.mem_iff.mpr hm)]
  · rw [if_neg hm, if_neg (fun h => hm (hperm.mem_iff.mp h))]

/-- Witness for C7: two benchmarks and two fuzzers, with the pool
completing the four tasks in reversed order. -/
theorem parallel_and_sequential_reports_agree_witness :
    (List.Perm [("b2", "f2"), ("b2", "f1"), ("b1", "f2"), ("b1", "f1")]
      (generate_cov_report_args ["b1", "b2"] ["f1", "f2"])) ∧
    generate_cov_reports (fun b f => b ++ "/" ++ f)
        [("b2", "f2"), ("b2", "f1"), ("b1", "f2"), ("b1", "f1")] =
      generate_cov_reports_seq (fun b f => b ++ "/" ++ f) ["b1", "b2"] ["f1", "f2"] :=
  ⟨by decide,
   parallel_and_sequential_reports_agree (fun b f => b ++ "/" ++ f)
     ["b1", "b2"] ["f1", "f2"]
     [("b2", "f2"), ("b2", "f1"), ("b1", "f2"), ("b1", "f1")] (by decide)⟩

lemma dict_update_fresh (d : CoverageDict) (k : String) (v : RegionSet)
    (h : d.any (fun p => p.1 = k) = false) :
    dict_update d k v = d ++ [(k, v)] := by
  unfold dict_update
  rw [if_neg (by simp [h])]

lemma foldl_dict_update_nodup (entries : List (String × RegionSet))
    (acc : CoverageDict)
    (hdisj : ∀ e ∈ entries, acc.any (fun p => p.1 = e.1) = false)
    (hnodup : (entries.map Prod.fst).Nodup) :
    entries.foldl (fun a e => dict_update a e.1 e.2) acc = acc ++ entries := by
  induction entries generalizing acc with
  | nil => simp
  | cons e rest ih =>
    rw [List.foldl_cons,
      dict_update_fresh acc e.1 e.2 (hdisj e (List.mem_cons_self e rest))]
    rw [List.map_cons, List.nodup_cons] at hnodup
    have hdisj' : ∀ x ∈ rest, (acc ++ [(e.1, e.2)]).any (fun p => p.1 = x.1) = false := by
      intro x hx
      rw [List.any_append]
      have h1 : acc.any (fun p => p.1 = x.1) = false :=
        hdisj x (List.mem_cons_of_mem e hx)
      have h2 : ([(e.1, e.2)] : CoverageDict).any (fun p => p.1 = x.1) = false := by
        simp only [List.any_cons, List.any_nil, Bool.or_false]
        have : e.1 ≠ x.1 := by
          intro hex
          exact hnodup.1 (hex ▸ List.mem_map_of_mem Prod.fst hx)
        simpa using this
      rw [h1, h2]
      rfl
    rw [ih (acc ++ [(e.1, e.2)]) hdisj' hnodup.2]
    simp

lemma dict_lookup_of_mem_nodup (entries : List (String × RegionSet))
    (hnodup : (entries.map Prod.fst).Nodup) (k : String) (v : RegionSet)
    (hm : (k, v) ∈ entries) :
    dict_lookup entries k = some v := by
  induction entries with
  | nil => cases hm
  | cons e rest ih =>
    rw [List.map_cons, List.nodup_cons] at hnodup
    rcases List.mem_cons.mp hm with he | hrest
    · rw [← he]
      unfold dict_lookup
      rw [List.find?_cons_of_pos _ (by simp)]
      rfl
    · have hek : e.1 ≠ k := by
        intro hek
        exact hnodup.1 (hek ▸ List.mem_map_of_mem Prod.fst hrest)
      rw [dict_lookup_cons_of_ne e rest k hek]
      exact ih hnodup.2 hrest

lemma get_all_covered_regions_entries (cfg : ExperimentConfig)
    (trial_ids : String → String → String → List Nat)
    (summaries : String → String → Nat → SummaryOutcome)
    (arrival : List (String × String))
    (hkeys : (arrival.map (fun p => get_fuzzer_benchmark_key p.1 p.2)).Nodup) :
    get_all_covered_regions cfg trial_ids summaries arrival =
      arrival.map (fun p => (get_fuzzer_benchmark_key p.1 p.2,
        covered_value (trial_ids cfg.experiment p.1 p.2) (summaries p.1 p.2))) := by
  show merge_messages (arrival.map fun p =>
    [(get_fuzzer_benchmark_key p.1 p.2,
      covered_value (trial_ids cfg.experiment p.1 p.2) (summaries p.1 p.2))]) = _
  unfold merge_messages
  rw [List.foldl_map]
  have hstep : (fun (a : CoverageDict)
      (p : String × String) => dict_update_all a
        [(get_fuzzer_benchmark_key p.1 p.2,
          covered_value (trial_ids cfg.experiment p.1 p.2) (summaries p.1 p.2))]) =
      (fun a p => dict_update a (get_fuzzer_benchmark_key p.1 p.2)
        (covered_value (trial_ids cfg.experiment p.1 p.2) (summaries p.1 p.2))) := rfl
  rw [hstep]
  have hfold := foldl_dict_update_nodup
    (arrival.map (fun p => (get_fuzzer_benchmark_key p.1 p.2,
      covered_value (trial_ids cfg.experiment p.1 p.2) (summaries p.1 p.2)))) []
    (fun _ _ => rfl) (by
      rw [List.map_map]
      exact hkeys)
  rw [List.foldl_map, List.nil_append] at hfold
  exact hfold
/-- C5 counterexample: a configuration whose fuzzer list contains a
duplicate name (`fuzzers = "a,a"`, `benchmarks = "b"`). The cross-product
has |B|·|F| = 2 dispatched pairs, but both produce the key `"a b"`, so
after a full run the global map has a single entry, not 2. -/
theorem aggregation_map_counterexample :
    (dispatch_pairs ⟨"b", "a,a", "e"⟩).Perm (dispatch_pairs ⟨"b", "a,a", "e"⟩) ∧
    (py_split "b" ',').length * (py_split "a,a" ',').length = 2 ∧
    (get_all_covered_regions ⟨"b", "a,a", "e"⟩ (fun _ _ _ => [])
      (fun _ _ _ => .error ()) (dispatch_pairs ⟨"b", "a,a", "e"⟩)).length = 1 := by
  refine ⟨List.Perm.refl _, by decide, by decide⟩

/-- C5 amended: provided the configured benchmark and fuzzer name lists
are duplicate-free and fuzzer names contain no spaces (both true of real
configurations), a full aggregation run — every dispatched pair's mapping
received, in any arrival order — yields a GlobalCoverageMap with exactly
one entry per (fuzzer, benchmark) pair, |B|·|F| entries in total; each
pair's entry holds the union of its trials' covered regions, and a pair
whose trial registry query returns no trial ids is mapped to the empty
RegionSet rather than causing a failure. -/
theorem aggregation_map_one_entry_per_pair (cfg : ExperimentConfig)
    (trial_ids : String → String → String → List Nat)
    (summaries : String → String → Nat → SummaryOutcome)
    (arrival : List (String × String))
    (hperm : arrival.Perm (dispatch_pairs cfg))
    (hF : (py_split cfg.fuzzers ',').Nodup)
    (hB : (py_split cfg.benchmarks ',').Nodup)
    (hspace : ∀ f ∈ py_split cfg.fuzzers ',', ' ' ∉ f.data) :
    (get_all_covered_regions cfg trial_ids summaries arrival).length =
      (py_split cfg.benchmarks ',').length * (py_split cfg.fuzzers ',').length ∧
    (∀ f ∈ py_split cfg.fuzzers ',', ∀ b ∈ py_split cfg.benchmarks ',',
      dict_lookup (get_all_covered_regions cfg trial_ids summaries arrival)
          (get_fuzzer_benchmark_key f b) =
        some (covered_value (trial_ids cfg.experiment f b) (summaries f b)) ∧
      (trial_ids cfg.experiment f b = [] →
        dict_lookup (get_all_covered_regions cfg trial_ids summaries arrival)
          (get_fuzzer_benchmark_key f b) = some (∅ : RegionSet))) := by
  have hdispatch_nodup : (dispatch_pairs cfg).Nodup := by
    show ((py_split cfg.fuzzers ',') ×ˢ (py_split cfg.benchmarks ',')).Nodup
    exact List.Nodup.product hF hB
  have hmem_dispatch : ∀ p : String × String,
      p ∈ dispatch_pairs cfg ↔
        p.1 ∈ py_split cfg.fuzzers ',' ∧ p.2 ∈ py_split cfg.benchmarks ',' := by
    intro p
    show p ∈ (py_split cfg.fuzzers ',') ×ˢ (py_split cfg.benchmarks ',') ↔ _
    exact List.mem_product
  have hkeys_dispatch : ((dispatch_pairs cfg).map
      (fun p => get_fuzzer_benchmark_key p.1 p.2)).Nodup := by
    refine List.Nodup.map_on ?_ hdispatch_nodup
    intro x hx y hy hxy
    obtain ⟨hf, hb⟩ := get_fuzzer_benchmark_key_inj x.1 x.2 y.1 y.2
      (hspace x.1 ((hmem_dispatch x).mp hx).1)
      (hspace y.1 ((hmem_dispatch y).mp hy).1) hxy
    exact Prod.ext hf hb
  have hkeys : (arrival.map (fun p => get_fuzzer_benchmark_key p.1 p.2)).Nodup :=
    ((hperm.map (fun p => get_fuzzer_benchmark_key p.1 p.2)).nodup_iff).mpr
      hkeys_dispatch
  have hentries := get_all_covered_regions_entries cfg trial_ids summaries
    arrival hkeys
  have hkeys_entries : ((arrival.map (fun p => (get_fuzzer_benchmark_key p.1 p.2,
      covered_value (trial_ids cfg.experiment p.1 p.2) (summaries p.1 p.2)))).map
        Prod.fst).Nodup := by
    rw [List.map_map]
    exact hkeys
  constructor
  · rw [hentries, List.length_map, hperm.length_eq]
    show ((py_split cfg.fuzzers ',').flatMap fun f =>
      (py_split cfg.benchmarks ',').map fun b => (f, b)).length = _
    rw [List.length_flatMap]
    have hmapl : (List.map (List.length ∘ fun f =>
        (py_split cfg.benchmarks ',').map fun b => (f, b))
          (py_split cfg.fuzzers ',')) =
        List.replicate (py_split cfg.fuzzers ',').length
          (py_split cfg.benchmarks ',').length := by
      rw [← List.map_const]
      apply List.map_congr_left
      intro f _
      simp
    rw [hmapl, List.sum_replicate, smul_eq_mul, Nat.mul_comm]
  · intro f hf b hb
    have hpair : (f, b) ∈ arrival :=
      hperm.mem_iff.mpr ((hmem_dispatch (f, b)).mpr ⟨hf, hb⟩)
    have hmem_entry : (get_fuzzer_benchmark_key f b,
        covered_value (trial_ids cfg.experiment f b) (summaries f b)) ∈
        arrival.map (fun p => (get_fuzzer_benchmark_key p.1 p.2,
          covered_value (trial_ids cfg.experiment p.1 p.2) (summaries p.1 p.2))) :=
      List.mem_map_of_mem _ hpair
    have hlook : dict_lookup (get_all_covered_regions cfg trial_ids summaries arrival)
        (get_fuzzer_benchmark_key f b) =
        some (covered_value (trial_ids cfg.experiment f b) (summaries f b)) := by
      rw [hentries]
      exact dict_lookup_of_mem_nodup _ hkeys_entries _ _ hmem_entry
    refine ⟨hlook, ?_⟩
    intro hids
    rw [hlook, hids]
    rfl

/-- Witness for C5 amended: two fuzzers and two benchmarks, the four
mappings arriving in reversed dispatch order; the map has 2·2 entries. -/
theorem aggregation_map_one_entry_per_pair_witness :
    ((dispatch_pairs ⟨"b1,b2", "afl,libfuzzer", "e"⟩).reverse.Perm
      (dispatch_pairs ⟨"b1,b2", "afl,libfuzzer", "e"⟩)) ∧
    (get_all_covered_regions ⟨"b1,b2", "afl,libfuzzer", "e"⟩ (fun _ _ _ => [])
      (fun _ _ _ => .error ())
      (dispatch_pairs ⟨"b1,b2", "afl,libfuzzer", "e"⟩).reverse).length =
      (py_split "b1,b2" ',').length * (py_split "afl,libfuzzer" ',').length :=
  ⟨List.reverse_perm _,
   (aggregation_map_one_entry_per_pair ⟨"b1,b2", "afl,libfuzzer", "e"⟩
     (fun _ _ _ => []) (fun _ _ _ => .error ())
     (dispatch_pairs ⟨"b1,b2", "afl,libfuzzer", "e"⟩).reverse
     (List.reverse_perm _) (by decide) (by decide) (by decide)).1⟩

/-- C3 counterexample: an interleaving in which the loop exits with a
result still buffered. With one task outstanding and the queue empty, the
consumer's `q.get` times out (`getEmpty`); the worker then completes,
putting its mapping on the queue (`workerPut`); `result.ready()` is now
true, so the consumer breaks (`readyTrue`) — leaving the queue non-empty,
the put mapping never merged. -/
theorem merge_loop_exit_with_buffered_result :
    EngineStep ⟨[[("afl b1", ({[1, 2, 3, 4]} : RegionSet))]], [], [], .tryGet⟩
      ⟨[[("afl b1", {[1, 2, 3, 4]})]], [], [], .checkReady⟩ ∧
    EngineStep ⟨[[("afl b1", ({[1, 2, 3, 4]} : RegionSet))]], [], [], .checkReady⟩
      ⟨[], [[("afl b1", {[1, 2, 3, 4]})]], [], .checkReady⟩ ∧
    EngineStep ⟨[], [[("afl b1", ({[1, 2, 3, 4]} : RegionSet))]], [], .checkReady⟩
      ⟨[], [[("afl b1", {[1, 2, 3, 4]})]], [], .done⟩ ∧
    (⟨[], [[("afl b1", ({[1, 2, 3, 4]} : RegionSet))]], [], .done⟩ :
      EngineState).queued ≠ [] :=
  ⟨EngineStep.getEmpty _ _,
   EngineStep.workerPut [] [("afl b1", {[1, 2, 3, 4]})] [] [] [] .checkReady,
   EngineStep.readyTrue _ _,
   by simp⟩

lemma engineStep_inversion (s s' : EngineState) (h : EngineStep s s') :
    (∃ l₁ m l₂, s.pending = l₁ ++ m :: l₂ ∧
      s' = ⟨l₁ ++ l₂, s.queued ++ [m], s.acc, s.phase⟩) ∨
    (∃ m rest, s.queued = m :: rest ∧ s.phase = .tryGet ∧
      s' = ⟨s.pending, rest, dict_update_all s.acc m, .tryGet⟩) ∨
    (s.queued = [] ∧ s.phase = .tryGet ∧
      s' = ⟨s.pending, [], s.acc, .checkReady⟩) ∨
    (s.pending = [] ∧ s.phase = .checkReady ∧
      s' = ⟨[], s.queued, s.acc, .done⟩) ∨
    (s.pending ≠ [] ∧ s.phase = .checkReady ∧
      s' = ⟨s.pending, s.queued, s.acc, .tryGet⟩) := by
  cases h with
  | workerPut l₁ m l₂ q a p => exact Or.inl ⟨l₁, m, l₂, rfl, rfl⟩
  | getItem p m rest a => exact Or.inr (Or.inl ⟨m, rest, rfl, rfl, rfl⟩)
  | getEmpty p a => exact Or.inr (Or.inr (Or.inl ⟨rfl, rfl, rfl⟩))
  | readyTrue q a => exact Or.inr (Or.inr (Or.inr (Or.inl ⟨rfl, rfl, rfl⟩)))
  | readyFalse p q a hne => exact Or.inr (Or.inr (Or.inr (Or.inr ⟨hne, rfl, rfl⟩)))

/-- C3 amended: the receive loop checks pool completion only after a
receive attempt has timed out empty, and it can break only when every
dispatched task has completed — no result is still to be produced at
exit, and once every task's result has been put and drained the loop
exits after exactly one further empty receive and one ready check (it
does not loop forever); a fully exited, fully completed run takes no
further step. However (see the counterexample) a result put between the
empty receive and the ready check can remain buffered at exit. -/
theorem merge_loop_termination :
    (∀ s s' : EngineState, EngineStep s s' → s.phase ≠ .done →
      s'.phase = .done →
      s.pending = [] ∧ s.phase = .checkReady ∧ s'.pending = []) ∧
    (∀ s s' : EngineState, EngineStep s s' → s.phase = .tryGet →
      s'.phase = .checkReady → s.queued = []) ∧
    (∀ s : EngineState, s.pending = [] → s.queued = [] → s.phase = .tryGet →
      ∀ s₁ s₂ : EngineState, EngineStep s s₁ → EngineStep s₁ s₂ →
        s₂.phase = .done) ∧
    (∀ s s' : EngineState, s.phase = .done → s.pending = [] →
      ¬EngineStep s s') := by
  refine ⟨?_, ?_, ?_, ?_⟩
  · intro s s' hstep hnd hdone
    cases hstep <;> simp_all
  · intro s s' hstep h1 h2
    cases hstep <;> simp_all
  · intro s h1 h2 h3 s₁ s₂ hs1 hs2
    rcases engineStep_inversion s s₁ hs1 with
      ⟨l₁, m, l₂, hp, _⟩ | ⟨m, rest, hq, _, _⟩ | ⟨_, _, hs₁⟩ | ⟨_, hph, _⟩ |
      ⟨hne, hph, _⟩
    · rw [h1] at hp
      exact absurd hp.symm (List.append_ne_nil_of_right_ne_nil l₁ (List.cons_ne_nil m l₂))
    · rw [h2] at hq
      exact absurd hq.symm (List.cons_ne_nil m rest)
    · subst hs₁
      rcases engineStep_inversion _ s₂ hs2 with
        ⟨l₁, m, l₂, hp, _⟩ | ⟨m, rest, hq, hph, _⟩ | ⟨_, hph, _⟩ | ⟨_, _, hs₂⟩ |
        ⟨hne, _, _⟩
      · rw [h1] at hp
        exact absurd hp.symm (List.append_ne_nil_of_right_ne_nil l₁ (List.cons_ne_nil m l₂))
      · simp at hph
      · simp at hph
      · subst hs₂
        rfl
      · rw [h1] at hne
        exact absurd rfl hne
    · rw [h3] at hph
      simp at hph
    · rw [h3] at hph
      simp at hph
  · intro s s' h1 h2 hstep
    rcases engineStep_inversion s s' hstep with
      ⟨l₁, m, l₂, hp, _⟩ | ⟨m, rest, hq, hph, _⟩ | ⟨_, hph, _⟩ | ⟨_, hph, _⟩ |
      ⟨hne, hph, _⟩
    · rw [h2] at hp
      exact absurd hp.symm (List.append_ne_nil_of_right_ne_nil l₁ (List.cons_ne_nil m l₂))
    · rw [h1] at hph
      simp at hph
    · rw [h1] at hph
      simp at hph
    · rw [h1] at hph
      simp at hph
    · rw [h1] at hph
      simp at hph

/-- Witness for C3 amended: from the drained state (no pending task,
empty queue, consumer about to receive), the two available steps — an
empty receive then a positive ready check — exit the loop. -/
theorem merge_loop_termination_witness :
    EngineStep ⟨[], [], [], .tryGet⟩ ⟨[], [], [], .checkReady⟩ ∧
    EngineStep ⟨[], [], [], .checkReady⟩ ⟨[], [], [], .done⟩ ∧
    (⟨[], [], [], .done⟩ : EngineState).phase = .done :=
  ⟨EngineStep.getEmpty [] [],
   EngineStep.readyTrue [] [],
   merge_loop_termination.2.2.1 ⟨[], [], [], .tryGet⟩ rfl rfl rfl
     ⟨[], [], [], .checkReady⟩ ⟨[], [], [], .done⟩
     (EngineStep.getEmpty [] []) (EngineStep.readyTrue [] [])⟩

